import Mathlib

/-!
Verification of the Hydralyte doctor/patient pipeline backend
(`src/backend/main.py`, `src/backend/groq_service.py`,
`src/backend/pdf_service.py`) against its natural-language specification.

The Python code is shallowly embedded: pure helpers become Lean functions,
the orchestrator `process_audio_pipeline` becomes a function from an
environment (the external collaborators' behaviour) to a result record that
logs status writes, persisted artifacts and collaborator invocation counts,
and the bluetooth watcher loop body becomes a state-transition function.
-/

set_option autoImplicit false

namespace Hydralyte

/-! ## Data model -/

/-- One diarized utterance as produced by the transcription collaborator
(`u.speaker`, `u.text`, `u.start`, `u.end` in `main.py` lines 164-172). -/
structure Utterance where
  speaker : String
  text : String
  start_ms : Nat
  end_ms : Nat
deriving Repr, DecidableEq

/-- Result object of one `transcribe_audio` call: the full text plus the
utterance list (`getattr(transcript, "utterances", None) or []` makes a
missing utterance list the empty list). -/
structure Transcript where
  text : String
  utterances : List Utterance
deriving Repr, DecidableEq

/-- A JSON value stored in a Summary field: either a scalar string or a list
of strings, mirroring `isinstance(v, list)` branching in `main.py` 204-210
and the Summary shape of §3 of the spec. -/
inductive SummaryValue where
  | s (v : String)
  | l (vs : List String)
deriving Repr, DecidableEq

/-- A Summary is a key-ordered association list, mirroring a Python dict
(insertion-ordered, keys unique as produced by `json.loads`). -/
def Summary : Type := List (String × SummaryValue)

instance : DecidableEq Summary := by
  unfold Summary
  infer_instance

/-- The transcript JSON persisted per job (`transcript_json` in `main.py`
lines 178-183). -/
structure TranscriptJson where
  audio_file : String
  language : String
  full_text : String
  utterances : List Utterance
deriving Repr, DecidableEq

/-- One `write_status` payload (`main.py` lines 63-66 and the various
`write_status` call sites). The timestamp is not modelled. -/
structure StatusRec where
  source : String
  file : String
  language : Option String
  stage : String
  error : Option String
deriving Repr, DecidableEq

/-! ## Python string primitives

Small character-list models of the Python `str` methods the backend uses
(`.strip()`, `.lower()`, `.endswith(...)`), kept kernel-computable. -/

/-- Python `str.strip()`: remove whitespace from both ends. -/
def pyStrip (s : String) : String :=
  ⟨((s.data.dropWhile Char.isWhitespace).reverse.dropWhile
      Char.isWhitespace).reverse⟩

/-- Python `str.lower()` on the ASCII filenames involved here. -/
def pyLower (s : String) : String :=
  ⟨s.data.map Char.toLower⟩

/-- Python `str.endswith(e)`. -/
def pyEndsWith (s e : String) : Bool :=
  List.isSuffixOf e.data s.data

/-! ## Readiness detector (`wait_until_ready`, `main.py` 87-99)

Time is abstracted to a list of poll observations inside the timeout
window: `some n` is a successful `os.path.getsize` returning `n`, `none`
is a `FileNotFoundError` (the except branch keeps `last_size` unchanged). -/

/-- Loop body of `wait_until_ready`: `last` is the Python `last_size`
(initially `-1`). Returns `true` as soon as a sampled size is positive and
equal to the previous sampled size. -/
def wur_loop : List (Option Nat) → Int → Bool
  | [], _ => false
  | some size :: rest, last =>
      if 0 < size ∧ (size : Int) = last then true else wur_loop rest size
  | none :: rest, last => wur_loop rest last

/-- Embedding of `wait_until_ready`: run the loop over the observations
made before the timeout elapses, with `last_size = -1` initially; falling
off the end of the window returns `False`. -/
def wait_until_ready (samples : List (Option Nat)) : Bool :=
  wur_loop samples (-1)

/-! ## Language detection (`detect_language_from_text`, `main.py` 126-133) -/

/-- Character test for the Devanagari block U+0900 to U+097F. -/
def isDevanagari (ch : Char) : Bool :=
  0x900 ≤ ch.toNat ∧ ch.toNat ≤ 0x97F

/-- Embedding of `detect_language_from_text`: "hi" if any character of the
text lies in the Devanagari block, otherwise "en". -/
def detect_language_from_text (text : String) : String :=
  if text.data.any isDevanagari then "hi" else "en"

/-! ## Role-based formatter (`format_role_based_text`, `main.py` 109-124) -/

/-- Update step for the `speaker_lengths` dict: add `n` to the entry of
`sp`, or append a new entry (Python dicts keep insertion order; an existing
key keeps its position). -/
def addLen : List (String × Nat) → String → Nat → List (String × Nat)
  | [], sp, n => [(sp, n)]
  | (k, v) :: rest, sp, n =>
      if k = sp then (k, v + n) :: rest else (k, v) :: addLen rest sp n

/-- The `speaker_lengths` dict after the accumulation loop. -/
def speaker_lengths (us : List Utterance) : List (String × Nat) :=
  us.foldl (fun acc u => addLen acc u.speaker u.text.length) []

/-- Python `max(..., key=...)` over the remaining entries: a later entry
replaces the current best only when strictly greater, so ties keep the
earliest entry. -/
def maxBySnd : List (String × Nat) → (String × Nat) → (String × Nat)
  | [], best => best
  | kv :: rest, best => maxBySnd rest (if best.2 < kv.2 then kv else best)

/-- The `doctor_speaker` pick: `max(speaker_lengths, key=speaker_lengths.get)`.
Python `max` raises on an empty dict; `format_role_based_text` only reaches
it with at least one utterance, so the empty case is arbitrary here. -/
def doctor_speaker : List (String × Nat) → String
  | [] => ""
  | kv :: rest => (maxBySnd rest kv).1

/-- The role line printed for utterance `u` once the doctor tag is fixed. -/
def roleLine (ds : String) (u : Utterance) : String :=
  (if u.speaker = ds then "Doctor" else "Patient") ++ ": " ++ u.text

/-- Embedding of `format_role_based_text`. -/
def format_role_based_text (us : List Utterance) : String :=
  if us = [] then ""
  else
    String.intercalate "\n" (us.map (roleLine (doctor_speaker (speaker_lengths us))))

/-- Total character count of a speaker's utterances, the quantity the
`speaker_lengths` loop accumulates per tag. -/
def totalLen (sp : String) : List Utterance → Nat
  | [] => 0
  | u :: us => (if u.speaker = sp then u.text.length else 0) + totalLen sp us

/-! ## Summarization input truncation (`generate_summary`, `groq_service.py`
lines 29-42) -/

/-- The formatted line for one utterance in the summarization prompt:
`f"{u['speaker']}: {u['text']}\n"`. -/
def convoLine (u : Utterance) : String :=
  u.speaker ++ ": " ++ u.text ++ "\n"

/-- The `convo` accumulation loop of `generate_summary`: `chars` counts the
lengths of all lines seen so far (including the one that overflows), and the
first line pushing the count past 6000 stops the loop without being
appended. -/
def buildConvo : List Utterance → Nat → List String
  | [], _ => []
  | u :: rest, chars =>
      let line := convoLine u
      let chars' := chars + line.length
      if 6000 < chars' then [] else line :: buildConvo rest chars'

/-- The conversation string sent to the language model. -/
def conversationOf (us : List Utterance) : String :=
  String.join (buildConvo us 0)

/-! ## Summary translation (`main.py` 204-210)

The translation collaborator `translate_text` is imported from
`language_service`, whose source is not in the repository; per the spec
(§6) it maps a single text string and a target language code to a
translated string, so it enters the embedding as an abstract function. -/

/-- Translation of one Summary field value, mirroring the dict
comprehension: a list value translates element-wise, a scalar value
translates directly; keys are untouched. -/
def translateValue (f : String → String → String) (lang : String) :
    SummaryValue → SummaryValue
  | .s v => .s (f v lang)
  | .l vs => .l (vs.map (fun i => f i lang))

/-- The dict comprehension of `main.py` 205-210 building `summary_final`
from `summary_en` when the detected language is not "en". -/
def translateSummary (f : String → String → String) (se : Summary)
    (lang : String) : Summary :=
  se.map (fun kv => (kv.1, translateValue f lang kv.2))

/-- Keys of a Summary, in order. -/
def summaryKeys (se : Summary) : List String :=
  se.map Prod.fst

/-- Shape of one field value: `none` for a scalar, `some n` for a list of
length `n`. -/
def valueShape : SummaryValue → Option Nat
  | .s _ => none
  | .l vs => some vs.length

/-- Field-by-field shape of a Summary. -/
def summaryShape (se : Summary) : List (Option Nat) :=
  se.map (fun kv => valueShape kv.2)

/-- Leaf text values of one field value. -/
def valueLeaves : SummaryValue → List String
  | .s v => [v]
  | .l vs => vs

/-- All leaf text values of a Summary, in field order. -/
def summaryLeaves (se : Summary) : List String :=
  (se.map (fun kv => valueLeaves kv.2)).flatten

/-- Number of `translate_text` calls the comprehension makes on a Summary:
one per leaf text value. -/
def countLeaves (se : Summary) : Nat :=
  (se.map (fun kv => (valueLeaves kv.2).length)).sum

/-! ## The report renderer call (`main.py` 227, `pdf_service.py` 163-167)

`pdf_service.generate_pdf` is declared as
`generate_pdf(summary_json_path, doctor_info, language="en")`:
`doctor_info` has no default. The orchestrator calls it as
`generate_pdf(spath, language=language)`, supplying no `doctor_info`, so
Python raises `TypeError` at the call before the renderer body runs. -/

/-- Doctor metadata record expected by the renderer (letterhead fields). -/
structure DoctorInfo where
  full_name : Option String
  degree : Option String
  clinic_name : Option String
  medical_id : Option String
  phone_number : Option String
  work_location : Option String
deriving Repr, DecidableEq

/-- Python call binding for `pdf_service.generate_pdf`: the renderer body
(abstracted as `render`, which may fail or return the written report path)
runs only when the required `doctor_info` argument is actually supplied;
otherwise the call itself raises `TypeError`. -/
def generate_pdf_call
    (render : String → DoctorInfo → String → Except String String)
    (summary_json_path : String) (doctor_info : Option DoctorInfo)
    (language : String) : Except String String :=
  match doctor_info with
  | none =>
      .error "generate_pdf() missing 1 required positional argument: 'doctor_info'"
  | some di => render summary_json_path di language

/-! ## The orchestrator (`process_audio_pipeline`, `main.py` 138-249) -/

/-- Behaviour of the external collaborators for one job. `transcribeAttempt
i` is the value returned by the `i`-th `transcribe_audio` call (`none` for a
falsy/failure result); `summarize` is `generate_summary` (error = raised
exception, and the orchestrator separately treats a falsy `{}` result as
"Summary generation failed"); `translate` is `language_service.translate_text`
(modelled from the spec, source absent from the repository); `render` is the
body of `pdf_service.generate_pdf` once its arguments bind. -/
structure PipelineEnv where
  transcribeAttempt : Nat → Option Transcript
  summarize : TranscriptJson → Except String Summary
  translate : String → String → String
  render : String → DoctorInfo → String → Except String String

/-- Everything observable about one orchestrator run: every `write_status`
payload in order, the persisted artifacts, the collaborator call counts,
whether the renderer body was ever entered, and the boolean return value. -/
structure PipelineResult where
  statuses : List StatusRec
  transcriptSaved : Option TranscriptJson
  summarySaved : Option Summary
  pdfSaved : Option String
  transcribeCalls : Nat
  translateCalls : Nat
  renderEntered : Bool
  returnValue : Bool
deriving DecidableEq

/-- Python truthiness of `transcript and getattr(transcript, "text", None)`:
a non-`None` result whose text is non-empty breaks the retry loop. -/
def goodAttempt : Option Transcript → Bool
  | some t => t.text ≠ ""
  | none => false

/-- Value of the `transcript` variable after the retry loop: the first
attempt if it broke the loop, otherwise the second attempt. -/
def pickedTranscript (env : PipelineEnv) : Option Transcript :=
  if goodAttempt (env.transcribeAttempt 0) then env.transcribeAttempt 0
  else env.transcribeAttempt 1

/-- Number of `transcribe_audio` calls the `for _ in range(2)` loop makes. -/
def transcribeCallCount (env : PipelineEnv) : Nat :=
  if goodAttempt (env.transcribeAttempt 0) then 1 else 2

/-- The transcript JSON the orchestrator would persist, if transcription
succeeds (non-falsy result with non-blank text). -/
def pipelineTranscriptJson (env : PipelineEnv) (base_name : String) :
    Option TranscriptJson :=
  match pickedTranscript env with
  | none => none
  | some t =>
      if t.text = "" ∨ pyStrip t.text = "" then none
      else
        some { audio_file := base_name,
               language := detect_language_from_text t.text,
               full_text := format_role_based_text t.utterances,
               utterances := t.utterances }

/-- Embedding of `process_audio_pipeline`. Filesystem writes become record
fields; each `write_status` call appends a `StatusRec`; raising inside the
`try` jumps to the `except` block, which writes the error status and
returns `False`. -/
def process_audio_pipeline (env : PipelineEnv) (base_name source : String) :
    PipelineResult :=
  let st1 : StatusRec := ⟨source, base_name, none, "transcribing", none⟩
  let calls := transcribeCallCount env
  match pipelineTranscriptJson env base_name with
  | none =>
      { statuses := [st1,
          ⟨source, base_name, none, "error", some "Transcription failed or empty"⟩],
        transcriptSaved := none, summarySaved := none, pdfSaved := none,
        transcribeCalls := calls, translateCalls := 0,
        renderEntered := false, returnValue := false }
  | some tj =>
      let language := tj.language
      let st2 : StatusRec := ⟨source, base_name, some language, "summarizing", none⟩
      match env.summarize tj with
      | .error e =>
          { statuses := [st1, st2, ⟨source, base_name, none, "error", some e⟩],
            transcriptSaved := some tj, summarySaved := none, pdfSaved := none,
            transcribeCalls := calls, translateCalls := 0,
            renderEntered := false, returnValue := false }
      | .ok summary_en =>
          if summary_en = ([] : Summary) then
            { statuses := [st1, st2,
                ⟨source, base_name, none, "error", some "Summary generation failed"⟩],
              transcriptSaved := some tj, summarySaved := none, pdfSaved := none,
              transcribeCalls := calls, translateCalls := 0,
              renderEntered := false, returnValue := false }
          else
            let summary_final :=
              if language ≠ "en" then translateSummary env.translate summary_en language
              else summary_en
            let tCalls := if language ≠ "en" then countLeaves summary_en else 0
            let spath := base_name ++ "_summary.json"
            let st3 : StatusRec := ⟨source, base_name, some language, "generating_pdf", none⟩
            match generate_pdf_call env.render spath none language with
            | .error e =>
                { statuses := [st1, st2, st3,
                    ⟨source, base_name, none, "error", some e⟩],
                  transcriptSaved := some tj, summarySaved := some summary_final,
                  pdfSaved := none,
                  transcribeCalls := calls, translateCalls := tCalls,
                  renderEntered := false, returnValue := false }
            | .ok pdf =>
                { statuses := [st1, st2, st3,
                    ⟨source, base_name, some language, "completed", none⟩],
                  transcriptSaved := some tj, summarySaved := some summary_final,
                  pdfSaved := some pdf,
                  transcribeCalls := calls, translateCalls := tCalls,
                  renderEntered := true, returnValue := true }

/-- Stage field of the last status written by a run (the state the job
terminates in, as observed by the status endpoint). -/
def finalStage (r : PipelineResult) : String :=
  match r.statuses.getLast? with
  | some st => st.stage
  | none => ""

/-! ## The bluetooth directory watcher (`bluetooth_watcher`, `main.py`
252-292)

One poll cycle iterates over a snapshot of `os.listdir(BLUETOOTH_DIR)`.
A candidate file (not yet in the ProcessedSet, allowed audio extension,
ready per `wait_until_ready`) is moved out of the watched directory into
the upload area, preprocessed, and run through the pipeline; only a
successful run adds the original filename to the ProcessedSet and persists
the ledger. Readiness and the pipeline outcome for a given filename are
abstracted into an environment. -/

/-- Watcher environment: whether `wait_until_ready` succeeds for a file
currently in the watched directory, and whether `process_audio_pipeline`
returns `True` for the job made from that file. -/
structure WatcherEnv where
  ready : String → Bool
  pipelineOk : String → Bool

/-- Watcher-relevant state: the files currently in the watched directory,
the in-memory ProcessedSet, and the number of `save_processed` ledger
writes performed. -/
structure WatcherState where
  bluetoothDir : List String
  processed : List String
  ledgerSaves : Nat
deriving Repr, DecidableEq

/-- Extension filter of `main.py` 266: lower-cased filename must end in one
of the allowed audio extensions. -/
def allowedExt (file : String) : Bool :=
  [".wav", ".mp3", ".m4a", ".aac", ".ogg", ".3gp"].any
    (fun e => pyEndsWith (pyLower file) e)

/-- Body of the `for file in os.listdir(BLUETOOTH_DIR)` loop, iterating the
snapshot `fs` taken at cycle start. `runs` accumulates the files actually
handed to `process_audio_pipeline` this cycle, in order. `shutil.move`
removes the file from the watched directory before the pipeline runs. -/
def pollFiles (env : WatcherEnv) :
    List String → WatcherState → List String → WatcherState × List String
  | [], st, runs => (st, runs)
  | f :: fs, st, runs =>
      if f ∈ st.processed then pollFiles env fs st runs
      else if ¬ allowedExt f then pollFiles env fs st runs
      else if ¬ env.ready f then pollFiles env fs st runs
      else
        let st' : WatcherState :=
          { st with bluetoothDir := st.bluetoothDir.erase f }
        if env.pipelineOk f then
          pollFiles env fs
            { st' with processed := f :: st'.processed,
                       ledgerSaves := st'.ledgerSaves + 1 }
            (runs ++ [f])
        else
          pollFiles env fs st' (runs ++ [f])

/-- One full poll cycle of the watcher over the current directory listing.
Returns the new state and the list of files run through the pipeline. -/
def pollCycle (env : WatcherEnv) (st : WatcherState) :
    WatcherState × List String :=
  pollFiles env st.bluetoothDir st []

/-! ## Theorems: readiness detector (claim C4) -/

/-- Successful size samples contain an adjacent pair of equal, positive
values: the event the readiness detector is waiting for. -/
def AdjPair (l : List Nat) : Prop :=
  ∃ pre v post, l = pre ++ v :: v :: post ∧ 0 < v

/-- Loop of `wait_until_ready` restricted to the successful samples (the
`FileNotFoundError` branch leaves `last_size` unchanged, so the loop only
ever compares successive successful samples). -/
def checkAdj : List Nat → Int → Bool
  | [], _ => false
  | a :: rest, last =>
      if 0 < a ∧ (a : Int) = last then true else checkAdj rest a

theorem wur_loop_eq_checkAdj (samples : List (Option Nat)) :
    ∀ last : Int, wur_loop samples last = checkAdj (samples.filterMap id) last := by
  induction samples with
  | nil => intro last; rfl
  | cons s rest ih =>
      intro last
      cases s with
      | none => simpa [wur_loop, List.filterMap_cons] using ih last
      | some a =>
          simp only [wur_loop, List.filterMap_cons, id, checkAdj]
          by_cases h : 0 < a ∧ (a : Int) = last

          · simp [h]
          · simp [h, ih a]

theorem adjPair_nil : ¬ AdjPair [] := by
  rintro ⟨pre, v, post, h, -⟩
  cases pre <;> simp at h

theorem adjPair_cons (a : Nat) (l : List Nat) :
    AdjPair (a :: l) ↔ (∃ post, l = a :: post ∧ 0 < a) ∨ AdjPair l := by
  constructor
  · rintro ⟨pre, v, post, heq, hv⟩
    cases pre with
    | nil =>
        simp only [List.nil_append, List.cons.injEq] at heq
        exact Or.inl ⟨post, by rw [heq.2, heq.1], heq.1 ▸ hv⟩
    | cons p pre' =>
        simp only [List.cons_append, List.cons.injEq] at heq
        exact Or.inr ⟨pre', v, post, heq.2, hv⟩
  · rintro (⟨post, hl, ha⟩ | ⟨pre, v, post, heq, hv⟩)
    · exact ⟨[], a, post, by simp [hl], ha⟩
    · exact ⟨a :: pre, v, post, by simp [heq], hv⟩

theorem checkAdj_iff (l : List Nat) :
    ∀ last : Int, checkAdj l last = true ↔
      (∃ post v, l = v :: post ∧ 0 < v ∧ (v : Int) = last) ∨ AdjPair l := by
  induction l with
  | nil =>
      intro last
      simp only [checkAdj, Bool.false_eq_true, false_iff]
      rintro (⟨post, v, h, -, -⟩ | h)
      · exact List.noConfusion h
      · exact adjPair_nil h
  | cons a rest ih =>
      intro last
      simp only [checkAdj]
      by_cases h : 0 < a ∧ (a : Int) = last
      · simp only [if_pos h, true_iff]
        exact Or.inl ⟨rest, a, rfl, h.1, h.2⟩
      · rw [if_neg h, ih a, adjPair_cons]
        constructor
        · rintro (⟨post, v, hl, hv, hva⟩ | hp)
          · have hv' : v = a := by exact_mod_cast hva
            subst hv'
            exact Or.inr (Or.inl ⟨post, hl, hv⟩)
          · exact Or.inr (Or.inr hp)
        · rintro (⟨post, v, hl, hv, hvl⟩ | ⟨post, hl, ha⟩ | hp)
          · cases hl
            exact absurd ⟨hv, hvl⟩ h
          · exact Or.inl ⟨post, a, hl, ha, by rfl⟩
          · exact Or.inr hp

theorem chain_no_adjPair (l : List Nat) (h : List.Chain' (· < ·) l) :
    ¬ AdjPair l := by
  rintro ⟨pre, v, post, rfl, -⟩
  induction pre with
  | nil => exact absurd (List.chain'_cons.mp h).1 (lt_irrefl v)
  | cons p pre' ih => exact ih h.tail

/-- C4. The readiness detector returns ready iff, among the successful size
samples observed within the timeout window, two consecutive samples are
equal and positive; in particular a strictly growing size sequence is never
reported ready, and a path missing on every poll just returns not-ready at
the timeout. -/
theorem wait_until_ready_spec (samples : List (Option Nat)) :
    (wait_until_ready samples = true ↔ AdjPair (samples.filterMap id)) ∧
    (List.Chain' (· < ·) (samples.filterMap id) →
      wait_until_ready samples = false) ∧
    ((∀ s ∈ samples, s = none) → wait_until_ready samples = false) := by
  have hmain : wait_until_ready samples = true ↔ AdjPair (samples.filterMap id) := by
    rw [wait_until_ready, wur_loop_eq_checkAdj, checkAdj_iff]
    constructor
    · rintro (⟨post, v, -, -, hv⟩ | hp)
      · exact absurd hv (by omega)
      · exact hp
    · exact Or.inr
  refine ⟨hmain, ?_, ?_⟩
  · intro hchain
    have := chain_no_adjPair _ hchain
    rw [← Bool.not_eq_true, hmain]
    exact this
  · intro hnone
    have hfm : samples.filterMap id = [] := by
      rw [List.filterMap_eq_nil_iff]
      intro a ha
      exact hnone a ha
    rw [← Bool.not_eq_true, hmain, hfm]
    exact adjPair_nil

/-- Witness for C4: a stable positive size is reported ready; a strictly
growing size sequence and an always-missing path are not. -/
theorem wait_until_ready_spec_witness :
    wait_until_ready [some 3, some 3] = true ∧
    wait_until_ready [some 1, some 2, some 3] = false ∧
    wait_until_ready [none, none, none] = false := by
  refine ⟨?_, ?_, ?_⟩
  · exact (wait_until_ready_spec [some 3, some 3]).1.mpr
      ⟨[], 3, [], by simp, by norm_num⟩
  · exact (wait_until_ready_spec [some 1, some 2, some 3]).2.1
      (by simp [List.filterMap_cons])
  · exact (wait_until_ready_spec [none, none, none]).2.2 (by simp)

/-! ## Theorems: summarization input truncation (claim C10) -/

/-- Total character count of the formatted conversation lines of `us`. -/
def convoChars (us : List Utterance) : Nat :=
  ((us.map convoLine).map String.length).sum

theorem convoChars_nil : convoChars [] = 0 := rfl

theorem convoChars_cons (u : Utterance) (us : List Utterance) :
    convoChars (u :: us) = (convoLine u).length + convoChars us := rfl

theorem buildConvo_take (us : List Utterance) :
    ∀ c : Nat, ∃ k, k ≤ us.length ∧
      buildConvo us c = (us.take k).map convoLine ∧
      (k = 0 ∨ c + convoChars (us.take k) ≤ 6000) ∧
      (k < us.length → 6000 < c + convoChars (us.take (k + 1))) := by
  induction us with
  | nil =>
      intro c
      exact ⟨0, le_refl 0, rfl, Or.inl rfl, fun h => absurd h (by simp)⟩
  | cons u rest ih =>
      intro c
      simp only [buildConvo]
      by_cases h : 6000 < c + (convoLine u).length
      · refine ⟨0, Nat.zero_le _, by rw [if_pos h]; rfl, Or.inl rfl, fun _ => ?_⟩
        simpa [convoChars_cons, convoChars_nil] using h
      · obtain ⟨k, hk, hbc, hbound, hnext⟩ := ih (c + (convoLine u).length)
        refine ⟨k + 1, by simpa using hk, ?_, ?_, ?_⟩
        · rw [if_neg h, hbc]
          simp
        · right
          rcases hbound with h0 | hle
          · subst h0
            simpa [convoChars_cons, convoChars_nil] using not_lt.mp h
          · simpa [convoChars_cons, Nat.add_assoc] using hle
        · intro hlt
          have hlt' : k < rest.length := by simpa using hlt
          have := hnext hlt'
          simpa [convoChars_cons, Nat.add_assoc] using this

/-- C10. The summarization stage sends the language model only an initial
segment of the utterance sequence: the conversation string is the
concatenation of the formatted lines of the first `k` utterances, where the
cumulative line length of those `k` stays within 6000 characters and, if
any utterance was dropped, adding the next line would exceed 6000; all
later utterances are omitted. -/
theorem generate_summary_truncates (us : List Utterance) :
    ∃ k, k ≤ us.length ∧
      conversationOf us = String.join ((us.take k).map convoLine) ∧
      convoChars (us.take k) ≤ 6000 ∧
      (k < us.length → 6000 < convoChars (us.take (k + 1))) := by
  obtain ⟨k, hk, hbc, hbound, hnext⟩ := buildConvo_take us 0
  refine ⟨k, hk, ?_, ?_, ?_⟩
  · rw [conversationOf, hbc]
  · rcases hbound with h0 | hle
    · subst h0
      simp [convoChars_nil]
    · simpa using hle
  · intro hlt
    simpa using hnext hlt

/-! ## Theorems: the orchestrator (claims C1, C2, C5, C7) -/

/-- Summarization (including the falsy-result check) succeeds for this
job: transcription produced a transcript and `generate_summary` returned a
non-empty record without raising. -/
def summarizeOk (env : PipelineEnv) (base : String) : Bool :=
  match pipelineTranscriptJson env base with
  | none => false
  | some tj =>
      match env.summarize tj with
      | .ok s => s ≠ ([] : Summary)
      | .error _ => false

theorem pipelineTranscriptJson_none_of_bad (env : PipelineEnv)
    (h0 : goodAttempt (env.transcribeAttempt 0) = false)
    (h1 : goodAttempt (env.transcribeAttempt 1) = false)
    (base : String) :
    pipelineTranscriptJson env base = none := by
  unfold pipelineTranscriptJson pickedTranscript
  rw [h0]
  cases ha : env.transcribeAttempt 1 with
  | none => simp
  | some t =>
      rw [ha] at h1
      simp only [goodAttempt, decide_eq_false_iff_not, not_not] at h1
      simp [h1]

theorem transcribeCalls_eq (env : PipelineEnv) (base source : String) :
    (process_audio_pipeline env base source).transcribeCalls =
      transcribeCallCount env := by
  cases htj : pipelineTranscriptJson env base with
  | none => simp [process_audio_pipeline, htj]
  | some tj =>
      cases hs : env.summarize tj with
      | error e => simp [process_audio_pipeline, htj, hs]
      | ok s =>
          by_cases hse : s = ([] : Summary)
          · simp [process_audio_pipeline, htj, hs, hse]
          · simp [process_audio_pipeline, htj, hs, hse, generate_pdf_call]

/-- C1 (code bug). No run of `process_audio_pipeline` can terminate in the
`completed` state: the renderer call `generate_pdf(spath, language=language)`
omits the required `doctor_info` argument of `pdf_service.generate_pdf`, so
the rendering stage always raises `TypeError`, the renderer body is never
entered, no report artifact is produced, and every job — including one whose
transcript is pure Latin script and skips translation — ends in `error`. -/
theorem pipeline_never_completes (env : PipelineEnv) (base source : String) :
    finalStage (process_audio_pipeline env base source) = "error" ∧
    (process_audio_pipeline env base source).pdfSaved = none ∧
    (process_audio_pipeline env base source).renderEntered = false ∧
    (process_audio_pipeline env base source).returnValue = false := by
  cases htj : pipelineTranscriptJson env base with
  | none => simp [process_audio_pipeline, htj, finalStage]
  | some tj =>
      cases hs : env.summarize tj with
      | error e => simp [process_audio_pipeline, htj, hs, finalStage]
      | ok s =>
          by_cases hse : s = ([] : Summary)
          · simp [process_audio_pipeline, htj, hs, hse, finalStage]
          · simp [process_audio_pipeline, htj, hs, hse, generate_pdf_call,
              finalStage]

/-- C5. The transcribing stage calls the transcription collaborator at most
twice, stops after one call when the first result has non-empty text, makes
exactly two calls otherwise, and when both attempts yield an empty or
failed result the job terminates in `error` with no artifact persisted. -/
theorem transcribing_retry_policy (env : PipelineEnv) (base source : String) :
    (process_audio_pipeline env base source).transcribeCalls ≤ 2 ∧
    (goodAttempt (env.transcribeAttempt 0) = true →
      (process_audio_pipeline env base source).transcribeCalls = 1) ∧
    (goodAttempt (env.transcribeAttempt 0) = false →
      (process_audio_pipeline env base source).transcribeCalls = 2) ∧
    (goodAttempt (env.transcribeAttempt 0) = false →
      goodAttempt (env.transcribeAttempt 1) = false →
      finalStage (process_audio_pipeline env base source) = "error" ∧
      (process_audio_pipeline env base source).transcriptSaved = none ∧
      (process_audio_pipeline env base source).summarySaved = none ∧
      (process_audio_pipeline env base source).pdfSaved = none) := by
  have hc := transcribeCalls_eq env base source
  refine ⟨?_, ?_, ?_, ?_⟩
  · rw [hc]
    unfold transcribeCallCount
    split <;> omega
  · intro h
    rw [hc]
    simp [transcribeCallCount, h]
  · intro h
    rw [hc]
    simp [transcribeCallCount, h]
  · intro h0 h1
    have htj := pipelineTranscriptJson_none_of_bad env h0 h1 base
    simp [process_audio_pipeline, htj, finalStage]

/-- C7. When the detected language is the default "en", the translating
stage is skipped (zero `translate_text` calls) and the persisted Summary is
exactly the summarization collaborator's output. -/
theorem default_language_skips_translation (env : PipelineEnv)
    (base source : String) (tj : TranscriptJson) (s : Summary)
    (htj : pipelineTranscriptJson env base = some tj)
    (hen : tj.language = "en")
    (hs : env.summarize tj = .ok s)
    (hne : s ≠ ([] : Summary)) :
    (process_audio_pipeline env base source).summarySaved = some s ∧
    (process_audio_pipeline env base source).translateCalls = 0 := by
  simp [process_audio_pipeline, htj, hs, hne, hen, generate_pdf_call]

/-! ### Concrete collaborator environments for evaluation -/

/-- Utterances of a small all-Latin two-speaker consultation. -/
def uttsEn : List Utterance :=
  [ { speaker := "A", text := "hello doctor", start_ms := 0, end_ms := 5 },
    { speaker := "B", text := "hi", start_ms := 5, end_ms := 9 } ]

/-- A small fixed Summary produced by the summarization collaborator. -/
def sEn : Summary :=
  [("doctor_summary", SummaryValue.s "visit"),
   ("symptoms", SummaryValue.l ["cough"])]

/-- Collaborators that all succeed, for an English-language job. -/
def envHappyEn : PipelineEnv where
  transcribeAttempt := fun _ => some { text := "hello doctor hi", utterances := uttsEn }
  summarize := fun _ => .ok sEn
  translate := fun t _ => t
  render := fun p _ _ => .ok (p ++ ".pdf")

/-- The transcript JSON the orchestrator builds for `envHappyEn`. -/
def tjEn : TranscriptJson :=
  { audio_file := "job",
    language := detect_language_from_text "hello doctor hi",
    full_text := format_role_based_text uttsEn,
    utterances := uttsEn }

/-- Utterances of a small Devanagari two-speaker consultation. -/
def uttsHi : List Utterance :=
  [ { speaker := "A", text := "नमस्ते डॉक्टर", start_ms := 0, end_ms := 5 },
    { speaker := "B", text := "हाँ", start_ms := 5, end_ms := 9 } ]

/-- A fixed Summary with one scalar and one two-element list field. -/
def sHi : Summary :=
  [("doctor_summary", SummaryValue.s "v"),
   ("symptoms", SummaryValue.l ["c1", "c2"])]

/-- Collaborators that all succeed, for a Hindi-language job. -/
def envHappyHi : PipelineEnv where
  transcribeAttempt := fun _ =>
    some { text := "नमस्ते डॉक्टर हाँ", utterances := uttsHi }
  summarize := fun _ => .ok sHi
  translate := fun t _ => "T:" ++ t
  render := fun p _ _ => .ok (p ++ ".pdf")

/-- The transcript JSON the orchestrator builds for `envHappyHi`. -/
def tjHi : TranscriptJson :=
  { audio_file := "job",
    language := detect_language_from_text "नमस्ते डॉक्टर हाँ",
    full_text := format_role_based_text uttsHi,
    utterances := uttsHi }

/-- A transcription collaborator whose every attempt fails. -/
def envBadTranscribe : PipelineEnv where
  transcribeAttempt := fun _ => none
  summarize := fun _ => .error "unused"
  translate := fun t _ => t
  render := fun p _ _ => .ok p

/-- Witness for C5: with both transcription attempts failing, exactly two
calls are made, the job terminates in `error`, and no transcript is
persisted. -/
theorem transcribing_retry_policy_witness :
    (process_audio_pipeline envBadTranscribe "job" "web").transcribeCalls = 2 ∧
    finalStage (process_audio_pipeline envBadTranscribe "job" "web") = "error" ∧
    (process_audio_pipeline envBadTranscribe "job" "web").transcriptSaved = none := by
  have h := transcribing_retry_policy envBadTranscribe "job" "web"
  exact ⟨h.2.2.1 rfl, (h.2.2.2 rfl rfl).1, (h.2.2.2 rfl rfl).2.1⟩

/-- Witness for C7: the happy English job keeps the summarizer's output
verbatim and makes no translation call. -/
theorem default_language_skips_translation_witness :
    (process_audio_pipeline envHappyEn "job" "web").summarySaved = some sEn ∧
    (process_audio_pipeline envHappyEn "job" "web").translateCalls = 0 := by
  exact default_language_skips_translation envHappyEn "job" "web" tjEn sEn
    (by decide) (by decide) rfl (by decide)

/-- C2 counterexample: a job whose transcription and summarization succeed
still ends in `error` (the rendering stage fails), yet its summary artifact
has been persisted — contradicting the claim that a failed job leaves no
summary artifact. -/
theorem error_job_with_summary_artifact :
    finalStage (process_audio_pipeline envHappyEn "job" "web") = "error" ∧
    (process_audio_pipeline envHappyEn "job" "web").summarySaved ≠ none := by
  decide

/-- C2 (amended). A job that ends in `error` has no report artifact; its
transcript artifact is persisted exactly when the transcribing stage
succeeded (and is exactly the transcript the orchestrator built); and its
summary artifact is persisted exactly when summarization (after which only
the rendering stage can fail) also succeeded. -/
theorem error_job_artifacts (env : PipelineEnv) (base source : String)
    (_herr : finalStage (process_audio_pipeline env base source) = "error") :
    (process_audio_pipeline env base source).pdfSaved = none ∧
    (process_audio_pipeline env base source).transcriptSaved =
      pipelineTranscriptJson env base ∧
    ((process_audio_pipeline env base source).summarySaved ≠ none ↔
      summarizeOk env base = true) := by
  cases htj : pipelineTranscriptJson env base with
  | none => simp [process_audio_pipeline, htj, summarizeOk]
  | some tj =>
      cases hs : env.summarize tj with
      | error e => simp [process_audio_pipeline, htj, hs, summarizeOk]
      | ok s =>
          by_cases hse : s = ([] : Summary)
          · simp [process_audio_pipeline, htj, hs, hse, summarizeOk]
          · simp [process_audio_pipeline, htj, hs, hse, summarizeOk,
              generate_pdf_call]

/-- Witness for the amended C2 at the concrete English job. -/
theorem error_job_artifacts_witness :
    (process_audio_pipeline envHappyEn "job" "web").pdfSaved = none ∧
    (process_audio_pipeline envHappyEn "job" "web").transcriptSaved =
      pipelineTranscriptJson envHappyEn "job" ∧
    ((process_audio_pipeline envHappyEn "job" "web").summarySaved ≠ none ↔
      summarizeOk envHappyEn "job" = true) := by
  exact error_job_artifacts envHappyEn "job" "web" (by decide)

/-! ## Theorems: translation shape preservation (claim C6) -/

theorem valueShape_translate (f : String → String → String) (lang : String)
    (v : SummaryValue) :
    valueShape (translateValue f lang v) = valueShape v := by
  cases v <;> simp [translateValue, valueShape]

theorem valueLeaves_translate (f : String → String → String) (lang : String)
    (v : SummaryValue) :
    valueLeaves (translateValue f lang v) =
      (valueLeaves v).map (fun t => f t lang) := by
  cases v <;> simp [translateValue, valueLeaves]

theorem summaryKeys_translate (f : String → String → String) (se : Summary)
    (lang : String) :
    summaryKeys (translateSummary f se lang) = summaryKeys se := by
  simp [summaryKeys, translateSummary, List.map_map, Function.comp]

theorem summaryShape_translate (f : String → String → String) (se : Summary)
    (lang : String) :
    summaryShape (translateSummary f se lang) = summaryShape se := by
  simp only [summaryShape, translateSummary, List.map_map]
  exact List.map_congr_left (fun kv _ => valueShape_translate f lang kv.2)

theorem summaryLeaves_translate (f : String → String → String) (se : Summary)
    (lang : String) :
    summaryLeaves (translateSummary f se lang) =
      (summaryLeaves se).map (fun t => f t lang) := by
  induction se with
  | nil => rfl
  | cons kv rest ih =>
      simp [summaryLeaves, translateSummary, valueLeaves_translate] at ih ⊢
      exact ih

theorem countLeaves_eq_length (se : Summary) :
    countLeaves se = (summaryLeaves se).length := by
  induction se with
  | nil => rfl
  | cons kv rest ih =>
      simp [countLeaves, summaryLeaves] at ih ⊢
      omega

/-- C6. When translation runs (detected language not the default), the
persisted Summary is the field-wise translation of the summarizer's output:
keys are untouched, the list-versus-scalar shape of every field (including
list lengths) is preserved, each leaf text value is translated
independently, and one translation call is made per leaf. -/
theorem translation_preserves_shape (env : PipelineEnv)
    (base source : String) (tj : TranscriptJson) (s : Summary)
    (htj : pipelineTranscriptJson env base = some tj)
    (hne : tj.language ≠ "en")
    (hs : env.summarize tj = .ok s)
    (hsne : s ≠ ([] : Summary)) :
    (process_audio_pipeline env base source).summarySaved =
      some (translateSummary env.translate s tj.language) ∧
    summaryKeys (translateSummary env.translate s tj.language) = summaryKeys s ∧
    summaryShape (translateSummary env.translate s tj.language) = summaryShape s ∧
    summaryLeaves (translateSummary env.translate s tj.language) =
      (summaryLeaves s).map (fun t => env.translate t tj.language) ∧
    (process_audio_pipeline env base source).translateCalls =
      (summaryLeaves s).length := by
  refine ⟨?_, summaryKeys_translate _ _ _, summaryShape_translate _ _ _,
    summaryLeaves_translate _ _ _, ?_⟩
  · simp [process_audio_pipeline, htj, hs, hsne, hne, generate_pdf_call]
  · simp [process_audio_pipeline, htj, hs, hsne, hne, generate_pdf_call,
      countLeaves_eq_length]

/-- Witness for C6 at the concrete Hindi job. -/
theorem translation_preserves_shape_witness :
    (process_audio_pipeline envHappyHi "job" "web").summarySaved =
      some (translateSummary envHappyHi.translate sHi tjHi.language) ∧
    (process_audio_pipeline envHappyHi "job" "web").translateCalls =
      (summaryLeaves sHi).length := by
  have h := translation_preserves_shape envHappyHi "job" "web" tjHi sHi
    (by decide) (by decide) rfl (by decide)
  exact ⟨h.1, h.2.2.2.2⟩

/-! ## Theorems: role assignment (claim C8) -/

/-- Keys of a speaker-length dict, in insertion order. -/
def keysOf (l : List (String × Nat)) : List String :=
  l.map Prod.fst

/-- Python `speaker_lengths.get(sp, 0)`: value of the first entry with key
`sp`, or 0. -/
def lookVal : List (String × Nat) → String → Nat
  | [], _ => 0
  | (k, v) :: rest, sp => if k = sp then v else lookVal rest sp

theorem lookVal_addLen (l : List (String × Nat)) (sp' sp : String) (n : Nat) :
    lookVal (addLen l sp' n) sp =
      lookVal l sp + (if sp' = sp then n else 0) := by
  induction l with
  | nil =>
      by_cases h : sp' = sp <;> simp [addLen, lookVal, h]
  | cons kv rest ih =>
      obtain ⟨k, v⟩ := kv
      by_cases hk : k = sp'
      · subst hk
        by_cases hs : k = sp
        · simp [addLen, lookVal, hs]
        · simp [addLen, lookVal, hs]
      · by_cases hs : k = sp
        · subst hs
          have : ¬ sp' = k := fun h => hk h.symm
          simp [addLen, lookVal, hk, this]
        · simp [addLen, lookVal, hk, hs, ih]

theorem lookVal_foldl (us : List Utterance) :
    ∀ (acc : List (String × Nat)) (sp : String),
      lookVal (us.foldl (fun acc u => addLen acc u.speaker u.text.length) acc) sp
        = lookVal acc sp + totalLen sp us := by
  induction us with
  | nil => intro acc sp; simp [totalLen]
  | cons u rest ih =>
      intro acc sp
      rw [List.foldl_cons, ih, lookVal_addLen]
      simp only [totalLen]
      omega

theorem lookVal_speaker_lengths (us : List Utterance) (sp : String) :
    lookVal (speaker_lengths us) sp = totalLen sp us := by
  simpa [lookVal] using lookVal_foldl us [] sp

theorem keys_addLen (l : List (String × Nat)) (sp : String) (n : Nat) :
    keysOf (addLen l sp n) =
      if sp ∈ keysOf l then keysOf l else keysOf l ++ [sp] := by
  induction l with
  | nil => simp [addLen, keysOf]
  | cons kv rest ih =>
      obtain ⟨k, v⟩ := kv
      by_cases hk : k = sp
      · simp [addLen, keysOf, hk]
      · have hsk : ¬ sp = k := fun h => hk h.symm
        simp only [addLen, if_neg hk, keysOf, List.map_cons, List.mem_cons]
        simp only [keysOf] at ih
        by_cases hm : sp ∈ List.map Prod.fst rest
        · rw [ih, if_pos hm, if_pos (Or.inr hm)]
        · rw [ih, if_neg hm, if_neg ?_]
          · rfl
          · rintro (h | h)
            · exact hsk h
            · exact hm h

theorem mem_keys_foldl (us : List Utterance) :
    ∀ (acc : List (String × Nat)) (sp : String),
      sp ∈ keysOf (us.foldl (fun acc u => addLen acc u.speaker u.text.length) acc)
        ↔ sp ∈ keysOf acc ∨ ∃ u ∈ us, u.speaker = sp := by
  induction us with
  | nil => intro acc sp; simp
  | cons u rest ih =>
      intro acc sp
      rw [List.foldl_cons, ih, keys_addLen]
      by_cases hm : u.speaker ∈ keysOf acc
      · rw [if_pos hm]
        constructor
        · rintro (h | h)
          · exact Or.inl h
          · exact Or.inr (by simpa using Or.inr (by simpa using h))
        · rintro (h | h)
          · exact Or.inl h
          · rcases (by simpa using h :
              u.speaker = sp ∨ ∃ x ∈ rest, x.speaker = sp) with h' | h'
            · exact Or.inl (h' ▸ hm)
            · exact Or.inr h'
      · rw [if_neg hm]
        simp only [List.mem_append, List.mem_singleton]
        constructor
        · rintro ((h | h) | h)
          · exact Or.inl h
          · exact Or.inr ⟨u, by simp, h.symm⟩
          · rcases h with ⟨x, hx, hxs⟩
            exact Or.inr ⟨x, by simp [hx], hxs⟩
        · rintro (h | h)
          · exact Or.inl (Or.inl h)
          · rcases h with ⟨x, hx, hxs⟩
            rcases List.mem_cons.mp hx with rfl | hx'
            · exact Or.inl (Or.inr hxs.symm)
            · exact Or.inr ⟨x, hx', hxs⟩

theorem mem_keys_speaker_lengths (us : List Utterance) (sp : String) :
    sp ∈ keysOf (speaker_lengths us) ↔ ∃ u ∈ us, u.speaker = sp := by
  simpa [keysOf] using mem_keys_foldl us [] sp

theorem nodup_keys_addLen (l : List (String × Nat)) (sp : String) (n : Nat)
    (h : (keysOf l).Nodup) : (keysOf (addLen l sp n)).Nodup := by
  rw [keys_addLen]
  by_cases hm : sp ∈ keysOf l
  · simpa [hm] using h
  · simp [hm, List.nodup_append, h]

theorem nodup_keys_foldl (us : List Utterance) :
    ∀ (acc : List (String × Nat)), (keysOf acc).Nodup →
      (keysOf (us.foldl (fun acc u => addLen acc u.speaker u.text.length) acc)).Nodup := by
  induction us with
  | nil => intro acc h; simpa using h
  | cons u rest ih =>
      intro acc h
      rw [List.foldl_cons]
      exact ih _ (nodup_keys_addLen acc u.speaker u.text.length h)

theorem nodup_keys_speaker_lengths (us : List Utterance) :
    (keysOf (speaker_lengths us)).Nodup :=
  nodup_keys_foldl us [] (by simp [keysOf])

theorem addLen_ne_nil (l : List (String × Nat)) (sp : String) (n : Nat) :
    addLen l sp n ≠ [] := by
  cases l with
  | nil => simp [addLen]
  | cons kv rest =>
      obtain ⟨k, v⟩ := kv
      by_cases hk : k = sp <;> simp [addLen, hk]

theorem head_key_addLen (l : List (String × Nat)) (sp : String) (n : Nat)
    (h : l ≠ []) :
    (addLen l sp n).head?.map Prod.fst = l.head?.map Prod.fst := by
  cases l with
  | nil => exact absurd rfl h
  | cons kv rest =>
      obtain ⟨k, v⟩ := kv
      by_cases hk : k = sp <;> simp [addLen, hk]

theorem head_key_foldl (us : List Utterance) :
    ∀ (acc : List (String × Nat)), acc ≠ [] →
      (us.foldl (fun acc u => addLen acc u.speaker u.text.length) acc).head?.map
          Prod.fst
        = acc.head?.map Prod.fst := by
  induction us with
  | nil => intro acc _; rfl
  | cons u rest ih =>
      intro acc hne
      rw [List.foldl_cons,
        ih _ (addLen_ne_nil acc u.speaker u.text.length),
        head_key_addLen acc u.speaker u.text.length hne]

theorem speaker_lengths_head (u : Utterance) (us : List Utterance) :
    (speaker_lengths (u :: us)).head?.map Prod.fst = some u.speaker := by
  unfold speaker_lengths
  rw [List.foldl_cons]
  rw [head_key_foldl us _ (addLen_ne_nil [] u.speaker u.text.length)]
  simp [addLen]

theorem keys_pair (K : List String) (a b : String) (hnd : K.Nodup)
    (hsub : ∀ k ∈ K, k = a ∨ k = b) (ha : a ∈ K) (hb : b ∈ K) (hab : a ≠ b) :
    K = [a, b] ∨ K = [b, a] := by
  match K with
  | [] => cases ha
  | [x] =>
      simp only [List.mem_singleton] at ha hb
      exact absurd (ha.trans hb.symm) hab
  | x :: y :: rest =>
      have hx := hsub x (by simp)
      have hy := hsub y (by simp)
      have hrest : rest = [] := by
        cases rest with
        | nil => rfl
        | cons z rest' =>
            have hz := hsub z (by simp)
            have h1 : x ≠ y := by
              intro h
              exact (List.nodup_cons.mp hnd).1 (by simp [h])
            have h2 : x ≠ z := by
              intro h
              exact (List.nodup_cons.mp hnd).1 (by simp [h])
            have h3 : y ≠ z := by
              intro h
              exact (List.nodup_cons.mp (List.nodup_cons.mp hnd).2).1 (by simp [h])
            rcases hx with rfl | rfl <;> rcases hy with rfl | rfl <;>
              rcases hz with rfl | rfl <;> simp_all
      subst hrest
      have hxy : x ≠ y := by
        intro h
        exact (List.nodup_cons.mp hnd).1 (by simp [h])
      rcases hx with rfl | rfl <;> rcases hy with rfl | rfl
      · exact absurd rfl hxy
      · exact Or.inl rfl
      · exact Or.inr rfl
      · exact absurd rfl hxy

theorem entries_of_keys_pair (l : List (String × Nat)) (a b : String)
    (hab : a ≠ b) (hk : keysOf l = [a, b]) :
    l = [(a, lookVal l a), (b, lookVal l b)] := by
  match l with
  | [] => simp [keysOf] at hk
  | [p] => simp [keysOf] at hk
  | p :: q :: rest =>
      obtain ⟨k1, v1⟩ := p
      obtain ⟨k2, v2⟩ := q
      simp only [keysOf, List.map_cons, List.cons.injEq] at hk
      obtain ⟨rfl, rfl, hmap⟩ := hk
      have hrest : rest = [] := List.map_eq_nil_iff.mp hmap
      subst hrest
      have hba : ¬ k1 = k2 := hab
      simp [lookVal, hba]

theorem doctor_speaker_pair (a b : String) (va vb : Nat) :
    doctor_speaker [(a, va), (b, vb)] = if va < vb then b else a := by
  by_cases h : va < vb <;> simp [doctor_speaker, maxBySnd, h]

theorem doctor_speaker_strict (us : List Utterance) (a b : String)
    (hab : a ≠ b)
    (hall : ∀ u ∈ us, u.speaker = a ∨ u.speaker = b)
    (ha : ∃ u ∈ us, u.speaker = a) (hb : ∃ u ∈ us, u.speaker = b)
    (hgt : totalLen b us < totalLen a us) :
    doctor_speaker (speaker_lengths us) = a := by
  have hnd := nodup_keys_speaker_lengths us
  have hsub : ∀ k ∈ keysOf (speaker_lengths us), k = a ∨ k = b := by
    intro k hk
    obtain ⟨u, hu, hus⟩ := (mem_keys_speaker_lengths us k).mp hk
    exact hus ▸ hall u hu
  have haK : a ∈ keysOf (speaker_lengths us) :=
    (mem_keys_speaker_lengths us a).mpr ha
  have hbK : b ∈ keysOf (speaker_lengths us) :=
    (mem_keys_speaker_lengths us b).mpr hb
  rcases keys_pair _ a b hnd hsub haK hbK hab with h | h
  · rw [entries_of_keys_pair _ a b hab h, doctor_speaker_pair,
      lookVal_speaker_lengths, lookVal_speaker_lengths,
      if_neg (not_lt.mpr (le_of_lt hgt))]
  · rw [entries_of_keys_pair _ b a hab.symm h, doctor_speaker_pair,
      lookVal_speaker_lengths, lookVal_speaker_lengths, if_pos hgt]

theorem doctor_speaker_tie (us : List Utterance) (a b : String)
    (u0 : Utterance) (hu0 : us.head? = some u0)
    (hab : a ≠ b)
    (hall : ∀ u ∈ us, u.speaker = a ∨ u.speaker = b)
    (ha : ∃ u ∈ us, u.speaker = a) (hb : ∃ u ∈ us, u.speaker = b)
    (hEq : totalLen a us = totalLen b us) :
    doctor_speaker (speaker_lengths us) = u0.speaker := by
  have hnd := nodup_keys_speaker_lengths us
  have hsub : ∀ k ∈ keysOf (speaker_lengths us), k = a ∨ k = b := by
    intro k hk
    obtain ⟨u, hu, hus⟩ := (mem_keys_speaker_lengths us k).mp hk
    exact hus ▸ hall u hu
  have haK : a ∈ keysOf (speaker_lengths us) :=
    (mem_keys_speaker_lengths us a).mpr ha
  have hbK : b ∈ keysOf (speaker_lengths us) :=
    (mem_keys_speaker_lengths us b).mpr hb
  cases us with
  | nil => cases hu0
  | cons u1 rest =>
      have hu1 : u1 = u0 := by simpa using hu0
      subst hu1
      have hhead := speaker_lengths_head u1 rest
      rcases keys_pair _ a b hnd hsub haK hbK hab with h | h
      · have hfirst : u1.speaker = a := by
          rw [entries_of_keys_pair _ a b hab h] at hhead
          simpa using hhead.symm
        rw [entries_of_keys_pair _ a b hab h, doctor_speaker_pair,
          lookVal_speaker_lengths, lookVal_speaker_lengths,
          if_neg (by omega), hfirst]
      · have hfirst : u1.speaker = b := by
          rw [entries_of_keys_pair _ b a hab.symm h] at hhead
          simpa using hhead.symm
        rw [entries_of_keys_pair _ b a hab.symm h, doctor_speaker_pair,
          lookVal_speaker_lengths, lookVal_speaker_lengths,
          if_neg (by omega), hfirst]

/-- C8. For utterances drawn from exactly two speaker tags `a` and `b`:
when tag `a` has strictly greater total character count, every output line
labels `a`-utterances "Doctor" and the other tag "Patient"; when the totals
are equal, the selection rule's first pick wins — the tag of the first
utterance (the first key inserted into the length dict) is labelled
"Doctor" — so the outcome is a deterministic function of the input. -/
theorem role_assignment (us : List Utterance) (a b : String)
    (hne : us ≠ []) (hab : a ≠ b)
    (hall : ∀ u ∈ us, u.speaker = a ∨ u.speaker = b)
    (ha : ∃ u ∈ us, u.speaker = a) (hb : ∃ u ∈ us, u.speaker = b) :
    (totalLen b us < totalLen a us →
      format_role_based_text us =
        String.intercalate "\n" (us.map (fun u =>
          (if u.speaker = a then "Doctor" else "Patient") ++ ": " ++ u.text))) ∧
    (totalLen a us = totalLen b us → ∀ u0, us.head? = some u0 →
      format_role_based_text us =
        String.intercalate "\n" (us.map (fun u =>
          (if u.speaker = u0.speaker then "Doctor" else "Patient") ++ ": " ++
            u.text))) := by
  constructor
  · intro hgt
    have hds := doctor_speaker_strict us a b hab hall ha hb hgt
    unfold format_role_based_text
    rw [if_neg hne, hds]
    rfl
  · intro hEq u0 hu0
    have hds := doctor_speaker_tie us a b u0 hu0 hab hall ha hb hEq
    unfold format_role_based_text
    rw [if_neg hne, hds]
    rfl

/-- Utterances with a tie: both speakers have total length 2. -/
def uttsTie : List Utterance :=
  [ { speaker := "A", text := "xy", start_ms := 0, end_ms := 1 },
    { speaker := "B", text := "ab", start_ms := 1, end_ms := 2 } ]

/-- Witness for C8: on the concrete two-speaker consultations, the more
talkative tag "A" is labelled Doctor, and in the tie case the first
utterance's tag is labelled Doctor. -/
theorem role_assignment_witness :
    format_role_based_text uttsEn =
      String.intercalate "\n" (uttsEn.map (fun u =>
        (if u.speaker = "A" then "Doctor" else "Patient") ++ ": " ++ u.text)) ∧
    format_role_based_text uttsTie =
      String.intercalate "\n" (uttsTie.map (fun u =>
        (if u.speaker = "A" then "Doctor" else "Patient") ++ ": " ++ u.text)) := by
  constructor
  · exact (role_assignment uttsEn "A" "B" (by decide) (by decide) (by decide)
      (by decide) (by decide)).1 (by decide)
  · exact (role_assignment uttsTie "A" "B" (by decide) (by decide) (by decide)
      (by decide) (by decide)).2 (by decide)
      { speaker := "A", text := "xy", start_ms := 0, end_ms := 1 } (by decide)

/-! ## Theorems: directory watcher dedup ledger (claim C3) -/

theorem pollFiles_frame (env : WatcherEnv) (fs : List String) :
    ∀ (st : WatcherState) (runs : List String) (f : String), f ∉ fs →
      ((f ∈ (pollFiles env fs st runs).1.processed ↔ f ∈ st.processed) ∧
       (f ∈ (pollFiles env fs st runs).1.bluetoothDir ↔ f ∈ st.bluetoothDir) ∧
       (f ∈ (pollFiles env fs st runs).2 ↔ f ∈ runs)) := by
  induction fs with
  | nil => intro st runs f _; exact ⟨Iff.rfl, Iff.rfl, Iff.rfl⟩
  | cons g fs' ih =>
      intro st runs f hf
      have hfg : f ≠ g := fun h => hf (h ▸ List.mem_cons_self g fs')
      have hf' : f ∉ fs' := fun h => hf (List.mem_cons_of_mem g h)
      simp only [pollFiles]
      by_cases h1 : g ∈ st.processed
      · rw [if_pos h1]
        exact ih st runs f hf'
      · rw [if_neg h1]
        by_cases h2 : allowedExt g = true
        · rw [if_neg (not_not_intro h2)]
          by_cases h3 : env.ready g = true
          · rw [if_neg (not_not_intro h3)]
            by_cases hok : env.pipelineOk g = true
            · rw [if_pos hok]
              obtain ⟨p1, p2, p3⟩ := ih _ _ f hf'
              refine ⟨p1.trans ?_, p2.trans ?_, p3.trans ?_⟩
              · simp [List.mem_cons, hfg]
              · exact List.mem_erase_of_ne hfg
              · simp [List.mem_append, hfg]
            · rw [if_neg hok]
              obtain ⟨p1, p2, p3⟩ := ih _ _ f hf'
              refine ⟨p1, p2.trans ?_, p3.trans ?_⟩
              · exact List.mem_erase_of_ne hfg
              · simp [List.mem_append, hfg]
          · rw [if_pos h3]
            exact ih st runs f hf'
        · rw [if_pos h2]
          exact ih st runs f hf'

theorem pollFiles_runs_sub (env : WatcherEnv) (fs : List String) :
    ∀ (st : WatcherState) (runs : List String) (f : String),
      f ∈ (pollFiles env fs st runs).2 → f ∈ runs ∨ f ∈ fs := by
  induction fs with
  | nil => intro st runs f h; exact Or.inl h
  | cons g fs' ih =>
      intro st runs f h
      simp only [pollFiles] at h
      by_cases h1 : g ∈ st.processed
      · rw [if_pos h1] at h
        rcases ih st runs f h with h' | h'
        · exact Or.inl h'
        · exact Or.inr (List.mem_cons_of_mem g h')
      · rw [if_neg h1] at h
        by_cases h2 : allowedExt g = true
        · rw [if_neg (not_not_intro h2)] at h
          by_cases h3 : env.ready g = true
          · rw [if_neg (not_not_intro h3)] at h
            by_cases hok : env.pipelineOk g = true
            · rw [if_pos hok] at h
              rcases ih _ _ f h with h' | h'
              · rcases List.mem_append.mp h' with h'' | h''
                · exact Or.inl h''
                · exact Or.inr (by simpa using Or.inl (List.mem_singleton.mp h''))
              · exact Or.inr (List.mem_cons_of_mem g h')
            · rw [if_neg hok] at h
              rcases ih _ _ f h with h' | h'
              · rcases List.mem_append.mp h' with h'' | h''
                · exact Or.inl h''
                · exact Or.inr (by simpa using Or.inl (List.mem_singleton.mp h''))
              · exact Or.inr (List.mem_cons_of_mem g h')
          · rw [if_pos h3] at h
            rcases ih st runs f h with h' | h'
            · exact Or.inl h'
            · exact Or.inr (List.mem_cons_of_mem g h')
        · rw [if_pos h2] at h
          rcases ih st runs f h with h' | h'
          · exact Or.inl h'
          · exact Or.inr (List.mem_cons_of_mem g h')

theorem pollFiles_run_spec (env : WatcherEnv) (fs : List String) :
    ∀ (st : WatcherState) (runs : List String) (f : String),
      fs.Nodup → st.bluetoothDir.Nodup → f ∉ runs →
      f ∈ (pollFiles env fs st runs).2 →
      f ∉ st.processed ∧
      (f ∈ (pollFiles env fs st runs).1.processed ↔ env.pipelineOk f = true) ∧
      f ∉ (pollFiles env fs st runs).1.bluetoothDir := by
  induction fs with
  | nil =>
      intro st runs f _ _ hfr hmem
      exact absurd hmem hfr
  | cons g fs' ih =>
      intro st runs f hnd hdnd hfr hmem
      have hgfs' : g ∉ fs' := (List.nodup_cons.mp hnd).1
      have hnd' : fs'.Nodup := (List.nodup_cons.mp hnd).2
      simp only [pollFiles] at hmem ⊢
      by_cases h1 : g ∈ st.processed
      · rw [if_pos h1] at hmem ⊢
        exact ih st runs f hnd' hdnd hfr hmem
      · rw [if_neg h1] at hmem ⊢
        by_cases h2 : allowedExt g = true
        · rw [if_neg (not_not_intro h2)] at hmem ⊢
          by_cases h3 : env.ready g = true
          · rw [if_neg (not_not_intro h3)] at hmem ⊢
            by_cases hok : env.pipelineOk g = true
            · rw [if_pos hok] at hmem ⊢
              by_cases hfG : f = g
              · subst hfG
                obtain ⟨p1, p2, -⟩ := pollFiles_frame env fs' _ _ f hgfs'
                refine ⟨h1, ?_, ?_⟩
                · exact ⟨fun _ => hok, fun _ => p1.mpr (by simp)⟩
                · intro hcon
                  have := p2.mp hcon
                  exact absurd ((hdnd.mem_erase_iff.mp this).1) (by simp)
              · have hfr' : f ∉ runs ++ [g] := by
                  simp [List.mem_append, hfr, hfG]
                obtain ⟨q1, q2, q3⟩ := ih _ _ f hnd' (hdnd.erase g) hfr' hmem
                exact ⟨fun hc => q1 (List.mem_cons_of_mem g hc), q2, q3⟩
            · rw [if_neg hok] at hmem ⊢
              by_cases hfG : f = g
              · subst hfG
                obtain ⟨p1, p2, -⟩ := pollFiles_frame env fs' _ _ f hgfs'
                refine ⟨h1, ?_, ?_⟩
                · rw [p1]
                  simp only [Bool.not_eq_true] at hok
                  simp [h1, hok]
                · intro hcon
                  have := p2.mp hcon
                  exact absurd ((hdnd.mem_erase_iff.mp this).1) (by simp)
              · have hfr' : f ∉ runs ++ [g] := by
                  simp [List.mem_append, hfr, hfG]
                exact ih _ _ f hnd' (hdnd.erase g) hfr' hmem
          · rw [if_pos h3] at hmem ⊢
            exact ih st runs f hnd' hdnd hfr hmem
        · rw [if_pos h2] at hmem ⊢
          exact ih st runs f hnd' hdnd hfr hmem

theorem pollFiles_ledger (env : WatcherEnv) (fs : List String) :
    ∀ (st : WatcherState) (runs : List String),
      (pollFiles env fs st runs).1.ledgerSaves + st.processed.length =
        st.ledgerSaves + (pollFiles env fs st runs).1.processed.length := by
  induction fs with
  | nil => intro st runs; rfl
  | cons g fs' ih =>
      intro st runs
      simp only [pollFiles]
      by_cases h1 : g ∈ st.processed
      · rw [if_pos h1]; exact ih st runs
      · rw [if_neg h1]
        by_cases h2 : allowedExt g = true
        · rw [if_neg (not_not_intro h2)]
          by_cases h3 : env.ready g = true
          · rw [if_neg (not_not_intro h3)]
            by_cases hok : env.pipelineOk g = true
            · rw [if_pos hok]
              have := ih { st with
                  bluetoothDir := st.bluetoothDir.erase g,
                  processed := g :: st.processed,
                  ledgerSaves := st.ledgerSaves + 1 } (runs ++ [g])
              simp only [List.length_cons] at this
              omega
            · rw [if_neg hok]
              exact ih _ _
          · rw [if_pos h3]; exact ih st runs
        · rw [if_pos h2]; exact ih st runs

/-- C3 (amended). For every file the watcher actually runs through the
pipeline in a poll cycle (listing without duplicates, as `os.listdir`
produces): it was not yet in the ProcessedSet; afterwards it is in the
ProcessedSet iff its pipeline run reported success, and the ledger is
persisted once per file added; but — success or failure — the file has
already been moved out of the watched directory, so it does not appear in
the next poll cycle's runs: a failed file is NOT retried. -/
theorem watcher_ledger_spec (env : WatcherEnv) (st : WatcherState)
    (hnd : st.bluetoothDir.Nodup) (f : String)
    (hrun : f ∈ (pollCycle env st).2) :
    f ∉ st.processed ∧
    (f ∈ (pollCycle env st).1.processed ↔ env.pipelineOk f = true) ∧
    f ∉ (pollCycle env st).1.bluetoothDir ∧
    f ∉ (pollCycle env (pollCycle env st).1).2 ∧
    (pollCycle env st).1.ledgerSaves + st.processed.length =
      st.ledgerSaves + (pollCycle env st).1.processed.length := by
  unfold pollCycle at hrun ⊢
  obtain ⟨h1, h2, h3⟩ :=
    pollFiles_run_spec env st.bluetoothDir st [] f hnd hnd (by simp) hrun
  refine ⟨h1, h2, h3, ?_, pollFiles_ledger env _ st []⟩
  intro hcon
  rcases pollFiles_runs_sub env _ _ _ f hcon with h | h
  · simp at h
  · exact h3 h

/-- Watcher collaborators for which every pipeline run fails. -/
def envWFail : WatcherEnv := ⟨fun _ => true, fun _ => false⟩

/-- Watcher collaborators for which every pipeline run succeeds. -/
def envWOk : WatcherEnv := ⟨fun _ => true, fun _ => true⟩

/-- A watched directory holding a single ready audio file. -/
def stOne : WatcherState := ⟨["a.wav"], [], 0⟩

/-- C3 counterexample: a file whose pipeline run fails is (as claimed) not
added to the ProcessedSet, but — contrary to the claim — it is NOT retried
on the next poll cycle: the watcher moved it out of the watched directory
before running the pipeline, so the next cycle runs nothing. -/
theorem failed_file_not_retried :
    (pollCycle envWFail stOne).2 = ["a.wav"] ∧
    "a.wav" ∉ (pollCycle envWFail stOne).1.processed ∧
    (pollCycle envWFail stOne).1.bluetoothDir = [] ∧
    (pollCycle envWFail (pollCycle envWFail stOne).1).2 = [] := by
  decide

/-- Witness for the amended C3 at a successful concrete run. -/
theorem watcher_ledger_spec_witness :
    "a.wav" ∉ stOne.processed ∧
    ("a.wav" ∈ (pollCycle envWOk stOne).1.processed ↔
      envWOk.pipelineOk "a.wav" = true) ∧
    "a.wav" ∉ (pollCycle envWOk stOne).1.bluetoothDir ∧
    "a.wav" ∉ (pollCycle envWOk (pollCycle envWOk stOne).1).2 ∧
    (pollCycle envWOk stOne).1.ledgerSaves + stOne.processed.length =
      stOne.ledgerSaves + (pollCycle envWOk stOne).1.processed.length := by
  exact watcher_ledger_spec envWOk stOne (by decide) "a.wav" (by decide)

end Hydralyte
